import Mathlib

/-!
Verification of the Lushenwar/deerhacks pipeline backend.

Shallow embedding of the stage functions and services in
`backend/app/agents/critic.py`, `backend/app/agents/access_analyst.py`,
`backend/app/agents/cost_analyst.py`, `backend/app/services/mapbox.py`,
`backend/app/core/ws_log_handler.py` and the websocket streaming loop in
`backend/app/api/routes.py`.

Conventions of the embedding:
- Python dicts that carry state/update payloads are association lists
  `List (String × Val)` with Python insert-or-overwrite semantics
  (`dictInsert`), preserving insertion order.
- External async calls (Gemini analysis, Mapbox isochrone fetches, weather,
  events) are parameters of the stage functions: a stage takes a function
  from venue to the settled outcome of its per-venue sub-task
  (`Except String _` — an `error` models the coroutine raising).
- Floating-point score arithmetic (`_compute_score`) is opaque: the score
  record a venue receives is part of the per-venue task outcome parameter;
  none of the verified claims depend on the numeric values.
- `asyncio.gather` without `return_exceptions=True` is modelled by `gather`,
  which yields the list of results when every task settles successfully and
  propagates the first failure otherwise.
-/

namespace Pathfinder

/-- JSON-like values stored in the plan state and in stage updates. -/
inductive Val where
  | vnull : Val
  | vbool : Bool → Val
  | vstr : String → Val
  | vnum : Int → Val
  | vlist : List Val → Val
  | vdict : List (String × Val) → Val

/-- Python truthiness for the modelled values (`if isochrone:` etc.). -/
def valTruthy : Val → Bool
  | Val.vnull => false
  | Val.vbool b => b
  | Val.vstr s => !(s = "")
  | Val.vnum n => !(n = 0)
  | Val.vlist xs => !xs.isEmpty
  | Val.vdict kvs => !kvs.isEmpty

/-- Truthiness of an optional value: Python `None` is falsy. -/
def optTruthy : Option Val → Bool
  | none => false
  | some v => valTruthy v

/-- Python `None`-or-string values (`fast_fail_reason`, `veto_reason`). -/
def optVal : Option String → Val
  | none => Val.vnull
  | some s => Val.vstr s

/-- Keys of an association-list dict, in insertion order. -/
def dictKeys (d : List (String × Val)) : List String := d.map Prod.fst

/-- Python `d[k] = v`: overwrite in place if the key exists, append otherwise. -/
def dictInsert (d : List (String × Val)) (k : String) (v : Val) :
    List (String × Val) :=
  if k ∈ dictKeys d then
    d.map (fun p => if p.1 = k then (k, v) else p)
  else d ++ [(k, v)]

/-- A loop of conditional dict writes, one per element of `l` (the shape of
the result-collection loops in `critic_node` and `access_analyst_node`). -/
def dfold {ρ : Type} (f : ρ → String) (g : ρ → Val) (p : ρ → Bool)
    (l : List ρ) (d : List (String × Val)) : List (String × Val) :=
  l.foldl (fun d r => if p r then dictInsert d (f r) (g r) else d) d

/-- Whether an `Except` computation settled successfully. -/
def settled {ε α : Type} : Except ε α → Bool
  | Except.ok _ => true
  | Except.error _ => false

/-- `asyncio.gather(*tasks)` without `return_exceptions=True`: succeeds with
the list of results only when every task succeeds, and otherwise propagates
the failure of a failing task. -/
def gather {ε α : Type} : List (Except ε α) → Except ε (List α)
  | [] => Except.ok []
  | Except.error e :: _ => Except.error e
  | Except.ok a :: ts => (gather ts).map (fun rs => a :: rs)

/-- The successful results of a task list, in order. -/
def okResults {ε α : Type} (ts : List (Except ε α)) : List α :=
  ts.filterMap (fun t => t.toOption)

/-- A candidate venue record; only the fields the embedded control flow reads
(`venue.get("venue_id")`, `venue.get("name")`). The geometry fields feed the
opaque per-venue score computation and are not needed here. -/
structure Venue where
  venue_id : Option String
  name : Option String
deriving DecidableEq

/-- `venue.get("venue_id", venue.get("name", "unknown"))`. -/
def venueId (v : Venue) : String := v.venue_id.getD (v.name.getD "unknown")

/-- `top_candidates[0].get("venue_id", top_candidates[0].get("name"))` —
note the missing final default: this can be Python `None`. -/
def topVenueKey (v : Venue) : Option String := v.venue_id <|> v.name

/-! ## Critic stage — `backend/app/agents/critic.py`, `critic_node`

The per-venue coroutine `_analyze_venue` ends in `try/except` around the
Gemini call, but its `asyncio.gather(get_weather(...), get_events(...))` is
outside that `try`: a per-venue sub-task can still raise. The stage is
therefore parameterised by `ctask : Venue → Except String Analysis`, the
settled outcome of `_analyze_venue` for each venue. The fields of `Analysis`
are the three keys `critic_node` reads from the parsed Gemini JSON
(`analysis.get("risks", [])`, truthiness of `analysis.get("fast_fail")`,
`analysis.get("fast_fail_reason")`). -/

/-- The per-venue analysis record the critic loop consumes. -/
structure Analysis where
  risks : Val
  fast_fail : Bool
  fast_fail_reason : Option String

/-- The task list `[_analyze_venue(v) for v in top_candidates]` with
`top_candidates = candidates[:3]`; each settled task yields
`(venue_id, analysis)`. -/
def criticBatchTasks (ctask : Venue → Except String Analysis)
    (cs : List Venue) : List (Except String (String × Analysis)) :=
  (cs.take 3).map (fun v => (ctask v).map (fun a => (venueId v, a)))

/-- `asyncio.gather(*[_analyze_venue(v) for v in top_candidates])`. -/
def criticResults (ctask : Venue → Except String Analysis) (cs : List Venue) :
    Except String (List (String × Analysis)) :=
  gather (criticBatchTasks ctask cs)

/-- The `risk_flags[venue_id] = analysis.get("risks", [])` loop. -/
def criticRiskFlags (results : List (String × Analysis)) :
    List (String × Val) :=
  dfold (fun r => r.1) (fun r => r.2.risks) (fun _ => true) results []

/-- One iteration of the `overall_fast_fail` / `fast_fail_reason` loop: a
result flips the flag only when it fast-fails and its id equals the top
candidate's key. -/
def criticStep (topKey : Option String) (acc : Bool × Option String)
    (r : String × Analysis) : Bool × Option String :=
  if r.2.fast_fail && (some r.1 == topKey) then (true, r.2.fast_fail_reason)
  else acc

/-- The whole `overall_fast_fail` / `fast_fail_reason` loop. -/
def criticOverall (topKey : Option String)
    (results : List (String × Analysis)) : Bool × Option String :=
  results.foldl (criticStep topKey) (false, none)

/-- `critic_node`: empty-candidate early return, otherwise analyze the first
three candidates concurrently and assemble the partial update. A failing
sub-task propagates out of the stage (the surrounding `try` only catches
`RuntimeError` from the event-loop workaround, and a retried run fails the
same way). -/
def critic_node (ctask : Venue → Except String Analysis) :
    List Venue → Except String (List (String × Val))
  | [] => Except.ok
      [("risk_flags", Val.vdict []), ("veto", Val.vbool false),
       ("veto_reason", Val.vnull)]
  | c0 :: rest =>
      (criticResults ctask (c0 :: rest)).map (fun results =>
        [("risk_flags", Val.vdict (criticRiskFlags results)),
         ("fast_fail", Val.vbool (criticOverall (topVenueKey c0) results).1),
         ("fast_fail_reason", optVal (criticOverall (topVenueKey c0) results).2),
         ("veto", Val.vbool (criticOverall (topVenueKey c0) results).1),
         ("veto_reason", optVal (criticOverall (topVenueKey c0) results).2)])

/-! ## Access analyst stage — `backend/app/agents/access_analyst.py`

`_analyze_venue_access` returns `(venue_id, score_data, isochrone)`; the
score record and the optional isochrone are the outcome of the per-venue
task parameter. The stage-level `except Exception` turns any failed batch
into `results = []`, discarding every sibling result. -/

/-- The task list handed to `asyncio.gather`, one per candidate venue. -/
def accessBatchTasks (task : Venue → Except String (Val × Option Val))
    (cs : List Venue) : List (Except String (String × Val × Option Val)) :=
  cs.map (fun v => (task v).map (fun p => (venueId v, p.1, p.2)))

/-- `results`: the settled batch, or `[]` when the gather raised
(`except Exception as exc: ... results = []`). -/
def accessResults (task : Venue → Except String (Val × Option Val))
    (cs : List Venue) : List (String × Val × Option Val) :=
  match gather (accessBatchTasks task cs) with
  | Except.ok rs => rs
  | Except.error _ => []

/-- `accessibility_scores[venue_id] = score_data` for every settled result. -/
def accessScoresDict (task : Venue → Except String (Val × Option Val))
    (cs : List Venue) : List (String × Val) :=
  dfold (fun r => r.1) (fun r => r.2.1) (fun _ => true)
    (accessResults task cs) []

/-- `if isochrone: isochrones[venue_id] = isochrone` — only truthy isochrone
payloads are stored; a failed lookup (`None`) leaves the venue absent. -/
def accessIsoDict (task : Venue → Except String (Val × Option Val))
    (cs : List Venue) : List (String × Val) :=
  dfold (fun r => r.1) (fun r => (r.2.2).getD Val.vnull)
    (fun r => optTruthy r.2.2) (accessResults task cs) []

/-- `access_analyst_node`: empty-candidate early return, otherwise run the
per-venue batch and assemble the two owned mappings. The single Python
result loop is split into the two independent folds above (same iteration
order, disjoint targets). -/
def access_analyst_node (task : Venue → Except String (Val × Option Val))
    (cs : List Venue) : List (String × Val) :=
  if cs.isEmpty then
    [("accessibility_scores", Val.vdict []), ("isochrones", Val.vdict [])]
  else
    [("accessibility_scores", Val.vdict (accessScoresDict task cs)),
     ("isochrones", Val.vdict (accessIsoDict task cs))]

/-! ## Cost analyst stage — `backend/app/agents/cost_analyst.py` -/

/-- `cost_analyst_node`: the body is `return state` — the stage echoes the
entire input plan state back as its update. -/
def cost_analyst_node (state : List (String × Val)) : List (String × Val) :=
  state

/-! ## Mapbox service — `backend/app/services/mapbox.py` -/

/-- The slice of the decoded isochrone JSON the code inspects:
`data.get("type")` and the truthiness of `data.get("features")`. -/
structure GeoData where
  typ : Option String
  features : List Val

/-- Truthiness of `data.get("type")`. -/
def geoTypeTruthy : Option String → Bool
  | none => false
  | some s => !(s = "")

/-- Outcome of the HTTP exchange inside `get_isochrone`. `badJson` models
`resp.json()` raising `json.JSONDecodeError`, which is not an `httpx` error
and is caught by neither `except` clause. -/
inductive MapboxResp where
  | httpStatusError : Nat → MapboxResp
  | httpError : String → MapboxResp
  | badJson : MapboxResp
  | okJson : GeoData → MapboxResp

/-- `get_isochrone`: `Except.ok none` is the graceful `return None`;
`Except.ok (some d)` returns a payload; `Except.error` models an exception
escaping to the caller. -/
def get_isochrone (token : String) (resp : MapboxResp) :
    Except String (Option GeoData) :=
  if token = "" then Except.ok none
  else
    match resp with
    | MapboxResp.httpStatusError _ => Except.ok none
    | MapboxResp.httpError _ => Except.ok none
    | MapboxResp.badJson => Except.error "JSONDecodeError"
    | MapboxResp.okJson data =>
        if data.typ = some "FeatureCollection" ∧ data.features.isEmpty = false
        then
          Except.ok (some data)
        else if geoTypeTruthy data.typ = true then Except.ok (some data)
        else Except.ok none

/-- One entry of the matrix result:
`{"duration_sec": ..., "distance_m": ..., "status": ...}`. Durations and
distances are abstracted to integers (their numeric value is irrelevant to
the claims); `none` models JSON `null`. -/
structure MatrixEntry where
  duration_sec : Option Int
  distance_m : Option Int
  status : String
deriving DecidableEq

/-- The `{"duration_sec": None, "distance_m": None, "status": "ERROR"}`
marker produced on a failed matrix request. -/
def errMarker : MatrixEntry :=
  { duration_sec := none, distance_m := none, status := "ERROR" }

/-- Outcome of the matrix HTTP exchange: `failure` is any exception inside
the `try` (network error, bad status, bad JSON, missing rows); `okJson`
carries the first row of `durations` and of `distances`. -/
inductive MatrixResp where
  | failure : MatrixResp
  | okJson : List (Option Int) → List (Option Int) → MatrixResp

/-- `get_distance_matrix`: empty list when no token; on any exception the
whole-batch ERROR-marker list, one per destination (the `except` also fires
when `distances[i]` raises `IndexError` mid-loop, discarding partial
results); otherwise one entry per index `1..len(durations)-1`. -/
def get_distance_matrix (token : String) (nDest : Nat) (resp : MatrixResp) :
    List MatrixEntry :=
  if token = "" then []
  else
    match resp with
    | MatrixResp.failure => List.replicate nDest errMarker
    | MatrixResp.okJson durations distances =>
        if 2 ≤ durations.length && distances.length < durations.length then
          List.replicate nDest errMarker
        else
          ((List.range durations.length).drop 1).map (fun i =>
            { duration_sec := durations.getD i none
              distance_m := distances.getD i none
              status :=
                if (durations.getD i none).isSome then "OK" else "FAIL" })

/-! ## WebSocket log handler — `backend/app/core/ws_log_handler.py` -/

/-- A `{node, message}` dict pushed to the per-connection queue. -/
structure LogEntry where
  node : String
  message : String
deriving DecidableEq

/-- `_PREFIX_MAP`. -/
def prefixTagMap : List (String × String) :=
  [("COMMANDER", "commander"), ("SCOUT", "scout"), ("VIBE", "vibe_matcher"),
   ("COST", "cost_analyst"), ("CRITIC", "critic"), ("SYNTH", "synthesiser"),
   ("GRAPH", "graph")]

/-- Characters of the separator class in `_SEPARATOR_RE`. -/
def sepChars : List Char :=
  [Char.ofNat 0x2500, Char.ofNat 0x2501, Char.ofNat 0x2550,
   Char.ofNat 0x254C, Char.ofNat 0x254D, Char.ofNat 0x2504,
   Char.ofNat 0x2505]

/-- Full match of `^[─━═╌╍┄┅]{4,}$` against a (stripped) string. -/
def sepOnly (s : String) : Bool :=
  decide (4 ≤ s.data.length) && s.data.all (fun c => sepChars.contains c)

/-- `[A-Z]`. -/
def isUpperAZ (c : Char) : Bool := 'A' ≤ c && c ≤ 'Z'

/-- Match of `^\[([A-Z]+)\]` over the character list: an opening bracket, a
maximal nonempty run of uppercase letters, then a closing bracket; the run
is group 1. -/
def tagOfChars : List Char → Option (List Char)
  | [] => none
  | c :: rest =>
      if c = '[' then
        let tag := rest.takeWhile isUpperAZ
        if tag ≠ [] ∧ (rest.drop tag.length).headD ' ' = ']' then some tag
        else none
      else none

/-- Match of `^\[([A-Z]+)\]` at the start of a message, returning group 1. -/
def tagOf (msg : String) : Option String :=
  (tagOfChars msg.data).map String.mk

/-- Python `str.strip()`: drop whitespace from both ends. -/
def pyStrip (s : String) : String :=
  String.mk
    (((s.data.dropWhile Char.isWhitespace).reverse.dropWhile
        Char.isWhitespace).reverse)

/-- Python `str.lower()` on the captured `[A-Z]+` tag. -/
def pyLower (t : String) : String := String.mk (t.data.map Char.toLower)

/-- The `node` computed by the handler: the mapped name of a recognised
`[PREFIX]` tag, the lowercased tag for an unrecognised one, `"system"` when
no tag matches. -/
def nodeOfMsg (msg : String) : String :=
  match tagOf msg with
  | some tag => (prefixTagMap.lookup tag).getD (pyLower tag)
  | none => "system"

/-- `WebSocketLogHandler.emit` on the formatted record text: `none` means
nothing was enqueued, `some e` means exactly `e` was enqueued. The input is
`Except`-shaped because `self.format(record)` may itself raise, in which
case the handler's `except Exception` routes to `handleError` and nothing is
enqueued — `emit` never lets an exception escape. -/
def wsHandlerEmit (fmt : Except String String) : Option LogEntry :=
  match fmt with
  | Except.error _ => none
  | Except.ok msg =>
      if msg = "" then none
      else if sepOnly (pyStrip msg) then none
      else some { node := nodeOfMsg msg, message := msg }

/-! ## Streaming loop — `backend/app/api/routes.py`, `websocket_plan`

The endpoint runs the graph as a background task (`run_graph` sets
`done_event` in its `finally` and captures either the result or the
exception), while the handler loop drains the per-connection FIFO queue and
forwards each `{node, message}` entry; after `await graph_task` it performs
a final drain-to-empty flush and then sends exactly one terminal frame —
`{"type": "result", ...}` when the graph succeeded, `{"type": "error", ...}`
when it raised.

The cooperative interleaving of the two tasks is modelled by a small-step
relation over an explicit state; the observer is assumed connected for the
whole run (a `WebSocketDisconnect` aborts forwarding, as §4.5 of the spec
describes separately). `toEmit` is the sequence of log entries the graph run
will emit, in emission (queue-arrival) order. -/

/-- The single terminal frame. -/
inductive TerminalMsg where
  | result : Val → TerminalMsg
  | errorMsg : String → TerminalMsg

/-- Which terminal frame the endpoint sends for a given graph outcome. -/
def terminalOf : Except String Val → TerminalMsg
  | Except.ok v => TerminalMsg.result v
  | Except.error e => TerminalMsg.errorMsg e

/-- Joint state of the graph task and the drain loop. -/
structure WSState where
  toEmit : List LogEntry
  graphDone : Bool
  q : List LogEntry
  delivered : List LogEntry
  terminal : Option TerminalMsg

/-- One cooperative step of the endpoint: the graph emits its next event
into the queue, the graph settles (`done_event.set()`), the drain loop pops
and forwards the queue head, or — once the graph is done and the queue has
been flushed empty — the single terminal frame is sent. -/
inductive WSStep (outcome : Except String Val) : WSState → WSState → Prop where
  | emit (s : WSState) (e : LogEntry) (rest : List LogEntry) :
      s.toEmit = e :: rest → s.graphDone = false →
      WSStep outcome s { s with toEmit := rest, q := s.q ++ [e] }
  | settle (s : WSState) :
      s.toEmit = [] → s.graphDone = false →
      WSStep outcome s { s with graphDone := true }
  | deliver (s : WSState) (e : LogEntry) (rest : List LogEntry) :
      s.q = e :: rest → s.terminal = none →
      WSStep outcome s { s with q := rest, delivered := s.delivered ++ [e] }
  | finalSend (s : WSState) :
      s.graphDone = true → s.q = [] → s.terminal = none →
      WSStep outcome s { s with terminal := some (terminalOf outcome) }

/-- Initial state of a run that will emit `events`. -/
def initWS (events : List LogEntry) : WSState :=
  { toEmit := events, graphDone := false, q := [], delivered := [],
    terminal := none }

/-- Reachability of a joint state within one run. -/
def WSReach (events : List LogEntry) (outcome : Except String Val)
    (s : WSState) : Prop :=
  Relation.ReflTransGen (WSStep outcome) (initWS events) s

/-- A state of the endpoint from which no step is possible (the handler has
returned). -/
def WSFinal (outcome : Except String Val) (s : WSState) : Prop :=
  ∀ t, ¬ WSStep outcome s t

/-! ## Dictionary lemmas -/

theorem dictKeys_map_replace (d : List (String × Val)) (k : String) (v : Val) :
    dictKeys (d.map (fun p => if p.1 = k then (k, v) else p)) = dictKeys d := by
  induction d with
  | nil => rfl
  | cons p t ih =>
      simp only [List.map_cons, dictKeys] at *
      by_cases h : p.1 = k
      · simp [h, ih]
      · simp [h, ih]

theorem mem_dictKeys_dictInsert (d : List (String × Val)) (k a : String)
    (v : Val) :
    a ∈ dictKeys (dictInsert d k v) ↔ a ∈ dictKeys d ∨ a = k := by
  unfold dictInsert
  by_cases h : k ∈ dictKeys d
  · rw [if_pos h, dictKeys_map_replace]
    constructor
    · exact fun ha => Or.inl ha
    · rintro (ha | rfl)
      · exact ha
      · exact h
  · rw [if_neg h]
    simp [dictKeys]

theorem dictKeys_dictInsert_of_not_mem (d : List (String × Val)) (k : String)
    (v : Val) (h : k ∉ dictKeys d) :
    dictKeys (dictInsert d k v) = dictKeys d ++ [k] := by
  unfold dictInsert
  rw [if_neg h]
  simp [dictKeys]

theorem nodup_dictKeys_dictInsert (d : List (String × Val)) (k : String)
    (v : Val) (h : (dictKeys d).Nodup) :
    (dictKeys (dictInsert d k v)).Nodup := by
  by_cases hk : k ∈ dictKeys d
  · unfold dictInsert
    rw [if_pos hk, dictKeys_map_replace]
    exact h
  · rw [dictKeys_dictInsert_of_not_mem d k v hk]
    refine List.Nodup.append h (List.nodup_singleton k) ?_
    intro a ha hb
    rw [List.mem_singleton] at hb
    subst hb
    exact hk ha

theorem mem_dictInsert (d : List (String × Val)) (k : String) (v : Val)
    (x : String × Val) (hx : x ∈ dictInsert d k v) : x ∈ d ∨ x = (k, v) := by
  unfold dictInsert at hx
  by_cases h : k ∈ dictKeys d
  · rw [if_pos h] at hx
    rcases List.mem_map.mp hx with ⟨p, hp, hpe⟩
    by_cases h1 : p.1 = k
    · rw [if_pos h1] at hpe
      exact Or.inr hpe.symm
    · rw [if_neg h1] at hpe
      exact Or.inl (hpe ▸ hp)
  · rw [if_neg h] at hx
    rcases List.mem_append.mp hx with h' | h'
    · exact Or.inl h'
    · exact Or.inr (List.mem_singleton.mp h')

theorem dfold_cons {ρ : Type} (f : ρ → String) (g : ρ → Val) (p : ρ → Bool)
    (r : ρ) (t : List ρ) (d : List (String × Val)) :
    dfold f g p (r :: t) d
      = dfold f g p t (if p r then dictInsert d (f r) (g r) else d) := rfl

theorem mem_dictKeys_dfold {ρ : Type} (f : ρ → String) (g : ρ → Val)
    (p : ρ → Bool) (l : List ρ) :
    ∀ (d : List (String × Val)) (a : String),
      a ∈ dictKeys (dfold f g p l d) ↔
        a ∈ dictKeys d ∨ ∃ r, r ∈ l ∧ p r = true ∧ f r = a := by
  induction l with
  | nil =>
      intro d a
      simp [dfold]
  | cons r t ih =>
      intro d a
      rw [dfold_cons]
      by_cases hp : p r = true
      · rw [if_pos hp, ih, mem_dictKeys_dictInsert]
        constructor
        · rintro ((hd | rfl) | ⟨r', hr', hpr', hfr'⟩)
          · exact Or.inl hd
          · exact Or.inr ⟨r, List.mem_cons_self r t, hp, rfl⟩
          · exact Or.inr ⟨r', List.mem_cons_of_mem _ hr', hpr', hfr'⟩
        · rintro (hd | ⟨r', hr'mem, hpr', hfr'⟩)
          · exact Or.inl (Or.inl hd)
          · rcases List.mem_cons.mp hr'mem with rfl | ht
            · exact Or.inl (Or.inr hfr'.symm)
            · exact Or.inr ⟨r', ht, hpr', hfr'⟩
      · rw [if_neg hp, ih]
        constructor
        · rintro (hd | ⟨r', ht, hpr', hfr'⟩)
          · exact Or.inl hd
          · exact Or.inr ⟨r', List.mem_cons_of_mem _ ht, hpr', hfr'⟩
        · rintro (hd | ⟨r', hr'mem, hpr', hfr'⟩)
          · exact Or.inl hd
          · rcases List.mem_cons.mp hr'mem with rfl | ht
            · exact absurd hpr' hp
            · exact Or.inr ⟨r', ht, hpr', hfr'⟩

theorem mem_dfold {ρ : Type} (f : ρ → String) (g : ρ → Val) (p : ρ → Bool)
    (l : List ρ) :
    ∀ (d : List (String × Val)) (x : String × Val), x ∈ dfold f g p l d →
      x ∈ d ∨ ∃ r, r ∈ l ∧ p r = true ∧ x = (f r, g r) := by
  induction l with
  | nil =>
      intro d x hx
      exact Or.inl hx
  | cons r t ih =>
      intro d x hx
      rw [dfold_cons] at hx
      by_cases hp : p r = true
      · rw [if_pos hp] at hx
        rcases ih _ _ hx with hd | ⟨r', ht, hpr', hxe⟩
        · rcases mem_dictInsert _ _ _ _ hd with hd' | rfl
          · exact Or.inl hd'
          · exact Or.inr ⟨r, List.mem_cons_self r t, hp, rfl⟩
        · exact Or.inr ⟨r', List.mem_cons_of_mem _ ht, hpr', hxe⟩
      · rw [if_neg hp] at hx
        rcases ih _ _ hx with hd | ⟨r', ht, hpr', hxe⟩
        · exact Or.inl hd
        · exact Or.inr ⟨r', List.mem_cons_of_mem _ ht, hpr', hxe⟩

theorem nodup_dictKeys_dfold {ρ : Type} (f : ρ → String) (g : ρ → Val)
    (p : ρ → Bool) (l : List ρ) :
    ∀ d, (dictKeys d).Nodup → (dictKeys (dfold f g p l d)).Nodup := by
  induction l with
  | nil => exact fun d h => h
  | cons r t ih =>
      intro d h
      rw [dfold_cons]
      by_cases hp : p r = true
      · rw [if_pos hp]
        exact ih _ (nodup_dictKeys_dictInsert _ _ _ h)
      · rw [if_neg hp]
        exact ih _ h

theorem dictKeys_dfold_of_nodup {ρ : Type} (f : ρ → String) (g : ρ → Val)
    (p : ρ → Bool) (l : List ρ) :
    ∀ d, (dictKeys d ++ (l.filter p).map f).Nodup →
      dictKeys (dfold f g p l d) = dictKeys d ++ (l.filter p).map f := by
  induction l with
  | nil =>
      intro d _
      simp [dfold]
  | cons r t ih =>
      intro d h
      rw [dfold_cons]
      by_cases hp : p r = true
      · rw [List.filter_cons_of_pos hp] at h ⊢
        simp only [List.map_cons] at h ⊢
        have hfr : f r ∉ dictKeys d := by
          intro hmem
          exact (List.disjoint_of_nodup_append h) hmem
            (List.mem_cons_self _ _)
        rw [if_pos hp]
        have hnd : (dictKeys (dictInsert d (f r) (g r))
            ++ (t.filter p).map f).Nodup := by
          rw [dictKeys_dictInsert_of_not_mem _ _ _ hfr, List.append_assoc,
            List.singleton_append]
          exact h
        rw [ih _ hnd, dictKeys_dictInsert_of_not_mem _ _ _ hfr,
          List.append_assoc, List.singleton_append]
      · rw [List.filter_cons_of_neg hp] at h ⊢
        rw [if_neg hp]
        exact ih d h

/-! ## Gather lemmas -/

theorem settled_map {ε α β : Type} (f : α → β) (x : Except ε α) :
    settled (x.map f) = settled x := by
  cases x <;> rfl

theorem gather_settled {ε α : Type} (ts : List (Except ε α)) :
    settled (gather ts) = ts.all (fun r => settled r) := by
  induction ts with
  | nil => rfl
  | cons r t ih =>
      cases r with
      | error e => rfl
      | ok a =>
          simp only [gather, List.all_cons]
          rw [settled_map, ih]
          rfl

theorem gather_eq_ok_iff {ε α : Type} (ts : List (Except ε α))
    (rs : List α) :
    gather ts = Except.ok rs ↔ ts = rs.map Except.ok := by
  induction ts generalizing rs with
  | nil =>
      cases rs with
      | nil => simp [gather]
      | cons b bs => simp [gather]
  | cons r t ih =>
      cases r with
      | error e =>
          simp only [gather]
          constructor
          · intro h
            exact absurd h (by simp)
          · intro h
            cases rs with
            | nil => simp at h
            | cons b bs => simp at h
      | ok a =>
          simp only [gather]
          constructor
          · intro h
            cases hg : gather t with
            | error e =>
                rw [hg] at h
                simp [Except.map] at h
            | ok l =>
                rw [hg] at h
                simp only [Except.map] at h
                have hrs : a :: l = rs := Except.ok.inj h
                subst hrs
                simp only [List.map_cons]
                rw [(ih l).mp hg]
          · intro h
            cases rs with
            | nil => simp at h
            | cons b bs =>
                simp only [List.map_cons] at h
                have h1 : (Except.ok a : Except ε α) = Except.ok b :=
                  List.head_eq_of_cons_eq h
                have h2 : t = bs.map Except.ok := List.tail_eq_of_cons_eq h
                have hab : a = b := Except.ok.inj h1
                subst hab
                rw [(ih bs).mpr h2]
                rfl

theorem gather_of_all_settled {ε α : Type} (ts : List (Except ε α))
    (h : ∀ r ∈ ts, settled r = true) :
    gather ts = Except.ok (okResults ts) := by
  induction ts with
  | nil => rfl
  | cons r t ih =>
      cases r with
      | error e =>
          have := h _ (List.mem_cons_self _ _)
          simp [settled] at this
      | ok a =>
          have ht := ih (fun r hr => h r (List.mem_cons_of_mem _ hr))
          simp only [gather, okResults, List.filterMap_cons, ht]
          rfl

/-! ## Glue lemmas between settled batches and candidate lists -/

theorem mem_of_map_eq_map_ok {α β : Type} (f : α → Except String β)
    (l : List α) :
    ∀ rs : List β, l.map f = rs.map Except.ok →
      ∀ r ∈ rs, ∃ v ∈ l, f v = Except.ok r := by
  induction l with
  | nil =>
      intro rs h r hr
      cases rs with
      | nil => cases hr
      | cons b bs => simp at h
  | cons v t ih =>
      intro rs h r hr
      cases rs with
      | nil => simp at h
      | cons b bs =>
          simp only [List.map_cons] at h
          have h1 : f v = Except.ok b := List.head_eq_of_cons_eq h
          have h2 : t.map f = bs.map Except.ok := List.tail_eq_of_cons_eq h
          rcases List.mem_cons.mp hr with rfl | hr'
          · exact ⟨v, List.mem_cons_self _ _, h1⟩
          · rcases ih bs h2 r hr' with ⟨v', hv', hfv'⟩
            exact ⟨v', List.mem_cons_of_mem _ hv', hfv'⟩

theorem exists_ok_of_mem_of_map_eq_map_ok {α β : Type}
    (f : α → Except String β) (l : List α) :
    ∀ rs : List β, l.map f = rs.map Except.ok →
      ∀ v ∈ l, ∃ r ∈ rs, f v = Except.ok r := by
  induction l with
  | nil =>
      intro rs h v hv
      cases hv
  | cons w t ih =>
      intro rs h v hv
      cases rs with
      | nil => simp at h
      | cons b bs =>
          simp only [List.map_cons] at h
          have h1 : f w = Except.ok b := List.head_eq_of_cons_eq h
          have h2 : t.map f = bs.map Except.ok := List.tail_eq_of_cons_eq h
          rcases List.mem_cons.mp hv with rfl | hv'
          · exact ⟨b, List.mem_cons_self _ _, h1⟩
          · rcases ih bs h2 v hv' with ⟨r, hr, hfr⟩
            exact ⟨r, List.mem_cons_of_mem _ hr, hfr⟩

theorem critic_any_fast_fail (ctask : Venue → Except String Analysis)
    (tk : Option String) (l : List Venue) :
    ∀ rs : List (String × Analysis),
      l.map (fun v => (ctask v).map (fun a => (venueId v, a)))
        = rs.map Except.ok →
      rs.any (fun r => r.2.fast_fail && (some r.1 == tk))
        = l.any (fun v =>
            match ctask v with
            | Except.ok a => a.fast_fail && (some (venueId v) == tk)
            | Except.error _ => false) := by
  induction l with
  | nil =>
      intro rs h
      cases rs with
      | nil => rfl
      | cons b bs => simp at h
  | cons v t ih =>
      intro rs h
      cases rs with
      | nil => simp at h
      | cons b bs =>
          simp only [List.map_cons] at h
          have h1 : (ctask v).map (fun a => (venueId v, a)) = Except.ok b :=
            List.head_eq_of_cons_eq h
          have h2 : t.map (fun v => (ctask v).map (fun a => (venueId v, a)))
              = bs.map Except.ok := List.tail_eq_of_cons_eq h
          simp only [List.any_cons]
          rw [ih bs h2]
          cases hct : ctask v with
          | error e =>
              rw [hct] at h1
              simp [Except.map] at h1
          | ok a =>
              rw [hct] at h1
              have hb : (venueId v, a) = b := Except.ok.inj h1
              rw [← hb]

/-- The ids of the settled critic batch are exactly the ids of the first
three candidates. -/
theorem map_fst_of_map_eq_map_ok {α β : Type} (f : α → Except String β)
    (idf : α → String) (pf : β → String) (l : List α)
    (hcomp : ∀ v b, f v = Except.ok b → pf b = idf v) :
    ∀ rs : List β, l.map f = rs.map Except.ok →
      rs.map pf = l.map idf := by
  induction l with
  | nil =>
      intro rs h
      cases rs with
      | nil => rfl
      | cons b bs => simp at h
  | cons v t ih =>
      intro rs h
      cases rs with
      | nil => simp at h
      | cons b bs =>
          simp only [List.map_cons] at h ⊢
          have h1 : f v = Except.ok b := List.head_eq_of_cons_eq h
          have h2 : t.map f = bs.map Except.ok := List.tail_eq_of_cons_eq h
          rw [hcomp v b h1, ih bs h2]

/-! ## Critic loop lemmas -/

theorem criticOverall_foldl_fst (tk : Option String)
    (l : List (String × Analysis)) :
    ∀ acc : Bool × Option String,
      (l.foldl (criticStep tk) acc).1
        = (acc.1 || l.any (fun r => r.2.fast_fail && (some r.1 == tk))) := by
  induction l with
  | nil =>
      intro acc
      simp
  | cons r t ih =>
      intro acc
      rw [List.foldl_cons, ih, List.any_cons]
      by_cases hc : (r.2.fast_fail && (some r.1 == tk)) = true
      · simp [criticStep, hc]
      · rw [Bool.not_eq_true] at hc
        simp [criticStep, hc]

theorem criticOverall_fst (tk : Option String)
    (results : List (String × Analysis)) :
    (criticOverall tk results).1
      = results.any (fun r => r.2.fast_fail && (some r.1 == tk)) := by
  unfold criticOverall
  rw [criticOverall_foldl_fst]
  simp

/-! ## Association-list lookup lemmas -/

theorem lookup_mem {β : Type} (l : List (String × β)) (k : String) (v : β)
    (h : l.lookup k = some v) : (k, v) ∈ l := by
  induction l with
  | nil => cases h
  | cons p t ih =>
      rw [List.lookup_cons] at h
      cases hbe : (k == p.1) with
      | true =>
          rw [hbe] at h
          have hv : p.2 = v := Option.some.inj h
          have hk : k = p.1 := eq_of_beq hbe
          have hkv : (k, v) = p := by rw [hk, ← hv]
          rw [List.mem_cons]
          exact Or.inl hkv
      | false =>
          rw [hbe] at h
          exact List.mem_cons_of_mem _ (ih h)

theorem lookup_eq_none_not_mem {β : Type} (l : List (String × β)) (k : String)
    (h : l.lookup k = none) : ∀ v, (k, v) ∉ l := by
  induction l with
  | nil =>
      intro v hv
      cases hv
  | cons p t ih =>
      intro v hv
      rw [List.lookup_cons] at h
      cases hbe : (k == p.1) with
      | true =>
          rw [hbe] at h
          exact Option.noConfusion h
      | false =>
          rw [hbe] at h
          rcases List.mem_cons.mp hv with he | ht
          · have hk : k = p.1 := congrArg Prod.fst he
            rw [hk] at hbe
            simp at hbe
          · exact ih h v ht

/-! ## Streaming-loop invariants -/

/-- The run invariant: every emitted event is in exactly one of
delivered/queued/pending (in order), the graph only settles after emitting
everything, and the terminal frame is only sent after the graph settled and
the queue was flushed. -/
def wsInv (events : List LogEntry) (outcome : Except String Val)
    (s : WSState) : Prop :=
  s.delivered ++ s.q ++ s.toEmit = events ∧
  (s.graphDone = true → s.toEmit = []) ∧
  (∀ m, s.terminal = some m →
    m = terminalOf outcome ∧ s.q = [] ∧ s.toEmit = [] ∧ s.graphDone = true)

theorem wsInv_init (events : List LogEntry) (outcome : Except String Val) :
    wsInv events outcome (initWS events) := by
  refine ⟨by simp [initWS], ?_, ?_⟩
  · intro h
    simp [initWS] at h
  · intro m hm
    simp [initWS] at hm

theorem wsInv_step (events : List LogEntry) (outcome : Except String Val)
    (s t : WSState) (hs : wsInv events outcome s)
    (hst : WSStep outcome s t) : wsInv events outcome t := by
  obtain ⟨h1, h2, h3⟩ := hs
  cases hst with
  | emit e rest he hg =>
      refine ⟨?_, ?_, ?_⟩
      · show s.delivered ++ (s.q ++ [e]) ++ rest = events
        rw [← h1, he]
        simp
      · intro hg'
        have hcontra : s.graphDone = true := hg'
        rw [hg] at hcontra
        cases hcontra
      · intro m hm
        have hcontra := (h3 m hm).2.2.2
        rw [hg] at hcontra
        cases hcontra
  | settle he hg =>
      refine ⟨h1, ?_, ?_⟩
      · intro _
        exact he
      · intro m hm
        obtain ⟨hme, hq, hte, _⟩ := h3 m hm
        exact ⟨hme, hq, hte, rfl⟩
  | deliver e rest hq hterm =>
      refine ⟨?_, h2, ?_⟩
      · show (s.delivered ++ [e]) ++ rest ++ s.toEmit = events
        rw [← h1, hq]
        simp
      · intro m hm
        have hcontra : s.terminal = some m := hm
        rw [hterm] at hcontra
        cases hcontra
  | finalSend hg hq hterm =>
      refine ⟨h1, h2, ?_⟩
      · intro m hm
        have hsome : some (terminalOf outcome) = some m := hm
        refine ⟨(Option.some.inj hsome).symm, hq, h2 hg, hg⟩

theorem wsReach_inv (events : List LogEntry) (outcome : Except String Val)
    (s : WSState) (h : WSReach events outcome s) :
    wsInv events outcome s := by
  induction h with
  | refl => exact wsInv_init events outcome
  | tail hab hbc ih => exact wsInv_step events outcome _ _ ih hbc

/-- Once the terminal frame is sent (and the graph is settled), no further
step is possible: the handler has returned, so at most one terminal frame is
ever sent. -/
theorem wsTerminal_final (outcome : Except String Val) (s : WSState)
    (m : TerminalMsg) (hm : s.terminal = some m) (hg : s.graphDone = true) :
    WSFinal outcome s := by
  intro t hstep
  cases hstep with
  | emit e rest he hgf =>
      rw [hg] at hgf
      cases hgf
  | settle he hgf =>
      rw [hg] at hgf
      cases hgf
  | deliver e rest hq hterm' =>
      rw [hm] at hterm'
      cases hterm'
  | finalSend _ _ hterm' =>
      rw [hm] at hterm'
      cases hterm'

/-- Every maximal run ends with the terminal frame sent and every emitted
event delivered, in order. -/
theorem wsFinal_terminal (events : List LogEntry) (outcome : Except String Val)
    (s : WSState) (hr : WSReach events outcome s) (hf : WSFinal outcome s) :
    s.terminal = some (terminalOf outcome) ∧ s.delivered = events := by
  obtain ⟨h1, h2, h3⟩ := wsReach_inv events outcome s hr
  cases hterm : s.terminal with
  | some m =>
      obtain ⟨hme, hq, hte, _⟩ := h3 m hterm
      subst hme
      refine ⟨rfl, ?_⟩
      rw [hq, hte] at h1
      simpa using h1
  | none =>
      exfalso
      cases hg : s.graphDone with
      | false =>
          cases hte : s.toEmit with
          | nil => exact hf _ (WSStep.settle s hte hg)
          | cons e rest => exact hf _ (WSStep.emit s e rest hte hg)
      | true =>
          cases hqe : s.q with
          | nil => exact hf _ (WSStep.finalSend s hg hqe hterm)
          | cons e rest => exact hf _ (WSStep.deliver s e rest hqe hterm)

/-! ## Tag-regex lemmas -/

/-- A string starts with the tag pattern `[TAG]` for this exact tag: the tag
is nonempty, all uppercase, and the message is `[`, the tag, `]`, rest. -/
def taggedWith (msg tag : String) : Prop :=
  tag.data ≠ [] ∧ (∀ c ∈ tag.data, isUpperAZ c = true) ∧
  ∃ rest, msg.data = '[' :: (tag.data ++ ']' :: rest)

theorem takeWhile_upper_append (l r : List Char)
    (hl : ∀ a ∈ l, isUpperAZ a = true) :
    (l ++ ']' :: r).takeWhile isUpperAZ = l := by
  induction l with
  | nil =>
      have hb : isUpperAZ ']' = false := by decide
      simp [List.takeWhile_cons, hb]
  | cons a t ih =>
      have ha := hl a (List.mem_cons_self _ _)
      have ht := fun c hc => hl c (List.mem_cons_of_mem _ hc)
      simp [List.takeWhile_cons, ha, ih ht]

theorem drop_length_takeWhile (p : Char → Bool) (l : List Char) :
    l.drop (l.takeWhile p).length = l.dropWhile p := by
  induction l with
  | nil => rfl
  | cons a t ih =>
      by_cases hp : p a = true
      · simp [List.takeWhile_cons, List.dropWhile_cons, hp, ih]
      · simp [List.takeWhile_cons, List.dropWhile_cons, hp]

theorem tagOfChars_eq_some_iff (cs t : List Char) :
    tagOfChars cs = some t ↔
      (t ≠ [] ∧ (∀ a ∈ t, isUpperAZ a = true) ∧
       ∃ rest, cs = '[' :: (t ++ ']' :: rest)) := by
  cases cs with
  | nil =>
      constructor
      · intro h
        cases h
      · rintro ⟨-, -, ⟨rest, h⟩⟩
        cases h
  | cons c rest =>
      by_cases hc : c = '['
      · subst hc
        simp only [tagOfChars, if_pos rfl]
        by_cases hcond : (rest.takeWhile isUpperAZ ≠ [] ∧
            ((rest.drop (rest.takeWhile isUpperAZ).length).headD ' ') = ']')
        · rw [if_pos hcond]
          obtain ⟨hne, hhead⟩ := hcond
          have hsplit :=
            List.takeWhile_append_dropWhile (p := isUpperAZ) (l := rest)
          have hdrop : rest.drop (rest.takeWhile isUpperAZ).length
              = rest.dropWhile isUpperAZ :=
            drop_length_takeWhile isUpperAZ rest
          rw [hdrop] at hhead
          constructor
          · intro h
            have ht : rest.takeWhile isUpperAZ = t := Option.some.inj h
            subst ht
            refine ⟨hne, fun a ha => List.mem_takeWhile_imp ha, ?_⟩
            cases hdw : rest.dropWhile isUpperAZ with
            | nil =>
                rw [hdw] at hhead
                exact absurd hhead (by decide)
            | cons d ds =>
                rw [hdw] at hhead
                simp only [List.headD_cons] at hhead
                subst hhead
                refine ⟨ds, ?_⟩
                conv_lhs => rw [← hsplit, hdw]
          · rintro ⟨hne', hall, rest', hcs⟩
            have hrest : rest = t ++ ']' :: rest' :=
              List.tail_eq_of_cons_eq hcs
            have htw : rest.takeWhile isUpperAZ = t := by
              rw [hrest]
              exact takeWhile_upper_append t rest' hall
            rw [htw]
            simp
        · rw [if_neg hcond]
          constructor
          · intro h
            cases h
          · rintro ⟨hne, hall, rest', hcs⟩
            exfalso
            apply hcond
            have hrest : rest = t ++ ']' :: rest' :=
              List.tail_eq_of_cons_eq hcs
            have htw : rest.takeWhile isUpperAZ = t := by
              rw [hrest]
              exact takeWhile_upper_append t rest' hall
            refine ⟨by rw [htw]; exact hne, ?_⟩
            rw [htw, hrest, List.drop_left]
            rfl
      · simp only [tagOfChars, if_neg hc]
        constructor
        · intro h
          cases h
        · rintro ⟨-, -, rest', hcs⟩
          exact (hc (List.head_eq_of_cons_eq hcs)).elim

theorem tagOf_eq_some_iff (msg tag : String) :
    tagOf msg = some tag ↔ taggedWith msg tag := by
  unfold tagOf taggedWith
  constructor
  · intro h
    cases htc : tagOfChars msg.data with
    | none =>
        rw [htc] at h
        cases h
    | some t =>
        rw [htc] at h
        have htag : tag = String.mk t := (Option.some.inj h).symm
        subst htag
        exact (tagOfChars_eq_some_iff msg.data t).mp htc
  · rintro ⟨h1, h2, rest, h3⟩
    have htc := (tagOfChars_eq_some_iff msg.data tag.data).mpr ⟨h1, h2, rest, h3⟩
    rw [htc]
    show some (String.mk tag.data) = some tag
    cases tag
    rfl

theorem tagOf_eq_none_not_tagged (msg : String) (h : tagOf msg = none) :
    ∀ tag, ¬ taggedWith msg tag := by
  intro tag htag
  rw [← tagOf_eq_some_iff] at htag
  rw [h] at htag
  cases htag

theorem nodeOfMsg_of_tag (msg tag : String) (h : tagOf msg = some tag) :
    nodeOfMsg msg = (prefixTagMap.lookup tag).getD (pyLower tag) := by
  unfold nodeOfMsg
  rw [h]

theorem nodeOfMsg_of_no_tag (msg : String) (h : tagOf msg = none) :
    nodeOfMsg msg = "system" := by
  unfold nodeOfMsg
  rw [h]

/-! ## Stage-level helper lemmas -/

theorem gather_not_settled_of_mem {ε α : Type} (ts : List (Except ε α))
    (r : Except ε α) (hmem : r ∈ ts) (hbad : settled r = false) :
    settled (gather ts) = false := by
  rw [gather_settled]
  cases hall : ts.all (fun r => settled r) with
  | false => rfl
  | true =>
      have hr := List.all_eq_true.mp hall r hmem
      rw [hbad] at hr
      cases hr

theorem accessResults_eq_of_gather_ok
    (task : Venue → Except String (Val × Option Val)) (cs : List Venue)
    (rs : List (String × Val × Option Val))
    (hg : gather (accessBatchTasks task cs) = Except.ok rs) :
    accessResults task cs = rs := by
  unfold accessResults
  rw [hg]

theorem accessResults_eq_of_gather_error
    (task : Venue → Except String (Val × Option Val)) (cs : List Venue)
    (e : String) (hg : gather (accessBatchTasks task cs) = Except.error e) :
    accessResults task cs = [] := by
  unfold accessResults
  rw [hg]

theorem accessResults_mem
    (task : Venue → Except String (Val × Option Val)) (cs : List Venue)
    (r : String × Val × Option Val) (hr : r ∈ accessResults task cs) :
    ∃ v, v ∈ cs ∧ ∃ p : Val × Option Val,
      task v = Except.ok p ∧ r = (venueId v, p.1, p.2) := by
  cases hg : gather (accessBatchTasks task cs) with
  | error e =>
      rw [accessResults_eq_of_gather_error task cs e hg] at hr
      cases hr
  | ok rs =>
      rw [accessResults_eq_of_gather_ok task cs rs hg] at hr
      have hmapeq := (gather_eq_ok_iff _ _).mp hg
      unfold accessBatchTasks at hmapeq
      rcases mem_of_map_eq_map_ok _ _ rs hmapeq r hr with ⟨v, hv, hfv⟩
      cases ht : task v with
      | error e2 =>
          rw [ht] at hfv
          simp [Except.map] at hfv
      | ok p =>
          rw [ht] at hfv
          have hre := Except.ok.inj hfv
          exact ⟨v, hv, p, ht, hre.symm⟩

theorem critic_node_ok_cons (ctask : Venue → Except String Analysis)
    (c0 : Venue) (rest : List Venue) (u : List (String × Val))
    (hu : critic_node ctask (c0 :: rest) = Except.ok u) :
    ∃ results, criticResults ctask (c0 :: rest) = Except.ok results ∧
      u = [("risk_flags", Val.vdict (criticRiskFlags results)),
           ("fast_fail", Val.vbool (criticOverall (topVenueKey c0) results).1),
           ("fast_fail_reason",
             optVal (criticOverall (topVenueKey c0) results).2),
           ("veto", Val.vbool (criticOverall (topVenueKey c0) results).1),
           ("veto_reason",
             optVal (criticOverall (topVenueKey c0) results).2)] := by
  simp only [critic_node] at hu
  cases hres : criticResults ctask (c0 :: rest) with
  | error e =>
      rw [hres] at hu
      simp [Except.map] at hu
  | ok results =>
      rw [hres] at hu
      simp only [Except.map] at hu
      exact ⟨results, rfl, (Except.ok.inj hu).symm⟩

theorem lookup_veto_update (a b c d e : Val) :
    List.lookup "veto"
      [("risk_flags", a), ("fast_fail", b), ("fast_fail_reason", c),
       ("veto", d), ("veto_reason", e)] = some d := rfl

theorem lookup_risk_flags_update (a b c d e : Val) :
    List.lookup "risk_flags"
      [("risk_flags", a), ("fast_fail", b), ("fast_fail_reason", c),
       ("veto", d), ("veto_reason", e)] = some a := rfl

theorem list_any_congr {α : Type} (l : List α) (f g : α → Bool)
    (h : ∀ a ∈ l, f a = g a) : l.any f = l.any g := by
  induction l with
  | nil => rfl
  | cons a t ih =>
      simp only [List.any_cons]
      rw [h a (List.mem_cons_self _ _),
        ih (fun b hb => h b (List.mem_cons_of_mem _ hb))]

theorem filter_true_eq {α : Type} (l : List α) :
    l.filter (fun _ => true) = l := by
  induction l with
  | nil => rfl
  | cons a t ih => simp [List.filter_cons, ih]

/-- Keys of the settled review batch's `risk_flags` are exactly the ids of
the candidate prefix the critic analyzed. -/
theorem criticRiskFlags_keys_iff (ctask : Venue → Except String Analysis)
    (cs : List Venue) (results : List (String × Analysis))
    (hres : criticResults ctask cs = Except.ok results) :
    ∀ k, k ∈ dictKeys (criticRiskFlags results) ↔
      k ∈ (cs.take 3).map venueId := by
  intro k
  unfold criticRiskFlags
  rw [mem_dictKeys_dfold]
  unfold criticResults at hres
  have hmapeq := (gather_eq_ok_iff _ _).mp hres
  unfold criticBatchTasks at hmapeq
  constructor
  · rintro (hk | ⟨r, hr, -, hfr⟩)
    · cases hk
    · rcases mem_of_map_eq_map_ok _ _ results hmapeq r hr with ⟨v, hv, hfv⟩
      cases hct : ctask v with
      | error e2 =>
          rw [hct] at hfv
          simp [Except.map] at hfv
      | ok a =>
          rw [hct] at hfv
          have hre : (venueId v, a) = r := Except.ok.inj hfv
          rw [← hfr, ← hre]
          exact List.mem_map_of_mem venueId hv
  · intro hk
    rcases List.mem_map.mp hk with ⟨v, hv, hkv⟩
    rcases exists_ok_of_mem_of_map_eq_map_ok _ _ results hmapeq v hv
      with ⟨r, hr, hfv⟩
    cases hct : ctask v with
    | error e2 =>
        rw [hct] at hfv
        simp [Except.map] at hfv
    | ok a =>
        rw [hct] at hfv
        have hre : (venueId v, a) = r := Except.ok.inj hfv
        right
        refine ⟨r, hr, rfl, ?_⟩
        rw [← hre]
        exact hkv

/-- With pairwise-distinct ids on the analyzed prefix, `risk_flags` holds
exactly one entry per analyzed candidate, in order. -/
theorem criticRiskFlags_keys_eq (ctask : Venue → Except String Analysis)
    (cs : List Venue) (results : List (String × Analysis))
    (hres : criticResults ctask cs = Except.ok results)
    (hnd : (((cs.take 3)).map venueId).Nodup) :
    dictKeys (criticRiskFlags results) = (cs.take 3).map venueId := by
  unfold criticResults at hres
  have hmapeq := (gather_eq_ok_iff _ _).mp hres
  unfold criticBatchTasks at hmapeq
  have hfst : results.map Prod.fst = (cs.take 3).map venueId := by
    refine map_fst_of_map_eq_map_ok _ venueId Prod.fst _ ?_ results hmapeq
    intro v b hb
    cases hct : ctask v with
    | error e2 =>
        rw [hct] at hb
        simp [Except.map] at hb
    | ok a =>
        rw [hct] at hb
        have := Except.ok.inj hb
        rw [← this]
  have hfst' : results.map (fun r => r.1) = (cs.take 3).map venueId := hfst
  unfold criticRiskFlags
  have hside : (dictKeys ([] : List (String × Val))
      ++ ((results.filter (fun _ => true)).map (fun r => r.1))).Nodup := by
    rw [filter_true_eq, hfst']
    simpa using hnd
  rw [dictKeys_dfold_of_nodup _ _ _ results [] hside, filter_true_eq, hfst']
  rfl

theorem get_isochrone_okJson (token : String) (data : GeoData)
    (hne : ¬ token = "") :
    get_isochrone token (MapboxResp.okJson data)
      = (if data.typ = some "FeatureCollection" ∧ data.features.isEmpty = false
         then Except.ok (some data)
         else if geoTypeTruthy data.typ = true then Except.ok (some data)
         else Except.ok none) := by
  unfold get_isochrone
  rw [if_neg hne]

/-! ## Claims -/

/-- Per-venue access task for the C1 counterexample: the venue `bad` raises,
every other venue settles with a score and an isochrone. -/
def c1task (v : Venue) : Except String (Val × Option Val) :=
  if v.venue_id == some "bad" then Except.error "boom"
  else Except.ok
    (Val.vnum 1, some (Val.vdict [("type", Val.vstr "FeatureCollection")]))

/-- Candidates for the C1 counterexample. -/
def c1cs : List Venue := [⟨some "good", none⟩, ⟨some "bad", none⟩]

/-- C1 counterexample: in a batch where exactly one sub-task raises
(`countP` of unsettled tasks is 1), the bare `asyncio.gather` does not
return a same-length sequence with a failure marker at the raising index —
it propagates the exception and yields no result sequence at all; at stage
level, the access analyst then discards the sibling's settled result and
returns empty mappings. -/
theorem c1_gather_counterexample :
    gather ([Except.ok 0, Except.error "boom", Except.ok 2] :
        List (Except String Nat)) = Except.error "boom" ∧
    (([Except.ok 0, Except.error "boom", Except.ok 2] :
        List (Except String Nat)).countP (fun r => !(settled r))) = 1 ∧
    settled (c1task ⟨some "good", none⟩) = true ∧
    settled (c1task ⟨some "bad", none⟩) = false ∧
    access_analyst_node c1task c1cs
      = [("accessibility_scores", Val.vdict []),
         ("isochrones", Val.vdict [])] :=
  ⟨rfl, rfl, rfl, rfl, rfl⟩

/-- C1 (amended): the gather-based batches do short-circuit. A batch whose
tasks all settle yields every result in order; a batch with any raising task
yields no result sequence (the exception propagates); the access stage then
returns empty mappings, discarding every sibling result, and the critic
stage lets the exception escape. -/
theorem c1_fanout_short_circuit :
    (∀ (α : Type) (ts : List (Except String α)),
        (∀ r ∈ ts, settled r = true) →
          gather ts = Except.ok (okResults ts)) ∧
    (∀ (α : Type) (ts : List (Except String α)) (r₀ : Except String α),
        r₀ ∈ ts → settled r₀ = false → settled (gather ts) = false) ∧
    (∀ (task : Venue → Except String (Val × Option Val)) (cs : List Venue)
        (v : Venue), v ∈ cs → settled (task v) = false →
          access_analyst_node task cs
            = [("accessibility_scores", Val.vdict []),
               ("isochrones", Val.vdict [])]) ∧
    (∀ (ctask : Venue → Except String Analysis) (cs : List Venue)
        (v : Venue), v ∈ cs.take 3 → settled (ctask v) = false →
          settled (critic_node ctask cs) = false) := by
  refine ⟨?_, ?_, ?_, ?_⟩
  · intro α ts h
    exact gather_of_all_settled ts h
  · intro α ts r₀ hmem hbad
    exact gather_not_settled_of_mem ts r₀ hmem hbad
  · intro task cs v hv hbad
    cases cs with
    | nil => cases hv
    | cons c0 rest =>
        have hmemtask : ((task v).map (fun p => (venueId v, p.1, p.2)))
            ∈ accessBatchTasks task (c0 :: rest) :=
          List.mem_map_of_mem _ hv
        have hbad2 : settled
            ((task v).map (fun p => (venueId v, p.1, p.2))) = false := by
          rw [settled_map]
          exact hbad
        have hgf := gather_not_settled_of_mem _ _ hmemtask hbad2
        cases hg : gather (accessBatchTasks task (c0 :: rest)) with
        | ok rs =>
            rw [hg] at hgf
            simp [settled] at hgf
        | error e =>
            have hres := accessResults_eq_of_gather_error task (c0 :: rest) e hg
            unfold access_analyst_node
            rw [if_neg (by simp)]
            unfold accessScoresDict accessIsoDict
            rw [hres]
            rfl
  · intro ctask cs v hv hbad
    cases cs with
    | nil =>
        simp at hv
    | cons c0 rest =>
        simp only [critic_node]
        rw [settled_map]
        unfold criticResults
        have hmemtask : ((ctask v).map (fun a => (venueId v, a)))
            ∈ criticBatchTasks ctask (c0 :: rest) :=
          List.mem_map_of_mem _ hv
        have hbad2 : settled ((ctask v).map (fun a => (venueId v, a)))
            = false := by
          rw [settled_map]
          exact hbad
        exact gather_not_settled_of_mem _ _ hmemtask hbad2

/-- C1 witness: the amended theorem at concrete batches. -/
theorem c1_fanout_short_circuit_witness :
    gather ([Except.ok 5] : List (Except String Nat)) = Except.ok [5] ∧
    settled (gather ([Except.error "x"] : List (Except String Nat)))
      = false ∧
    access_analyst_node (fun _ => Except.error "down") [⟨some "v", none⟩]
      = [("accessibility_scores", Val.vdict []),
         ("isochrones", Val.vdict [])] ∧
    settled (critic_node (fun _ => Except.error "down") [⟨some "v", none⟩])
      = false := by
  refine ⟨?_, ?_, ?_, ?_⟩
  · exact c1_fanout_short_circuit.1 Nat [Except.ok 5]
      (by intro r hr; rw [List.mem_singleton] at hr; rw [hr]; rfl)
  · exact c1_fanout_short_circuit.2.1 Nat [Except.error "x"]
      (Except.error "x") (List.mem_singleton.mpr rfl) rfl
  · exact c1_fanout_short_circuit.2.2.1 _ _ ⟨some "v", none⟩
      (List.mem_singleton.mpr rfl) rfl
  · exact c1_fanout_short_circuit.2.2.2 _ _ ⟨some "v", none⟩ (by simp) rfl

/-- C2 counterexample: the cost stage echoes the entire input plan state —
its return value contains `raw_prompt`, a key it does not own. -/
theorem c2_cost_stage_counterexample :
    cost_analyst_node
        [("raw_prompt", Val.vstr "plan a picnic"),
         ("cost_profiles", Val.vdict [])]
      = [("raw_prompt", Val.vstr "plan a picnic"),
         ("cost_profiles", Val.vdict [])] ∧
    "raw_prompt" ∈ dictKeys (cost_analyst_node
        [("raw_prompt", Val.vstr "plan a picnic"),
         ("cost_profiles", Val.vdict [])]) ∧
    "raw_prompt" ∉ ["cost_profiles"] := by
  refine ⟨rfl, ?_, by decide⟩
  show "raw_prompt" ∈ ["raw_prompt", "cost_profiles"]
  exact List.mem_cons_self _ _

/-- C2 (amended): the critic stage returns only
risk_flags/fast_fail/fast_fail_reason/veto/veto_reason and the access stage
returns only accessibility_scores/isochrones, but the cost stage (a stub)
returns the whole input state unchanged, echoing every key back. -/
theorem c2_stage_key_ownership (state : List (String × Val))
    (ctask : Venue → Except String Analysis)
    (task : Venue → Except String (Val × Option Val)) (cs : List Venue) :
    cost_analyst_node state = state ∧
    (∀ u, critic_node ctask cs = Except.ok u →
        dictKeys u = ["risk_flags", "veto", "veto_reason"] ∨
        dictKeys u = ["risk_flags", "fast_fail", "fast_fail_reason",
          "veto", "veto_reason"]) ∧
    dictKeys (access_analyst_node task cs)
      = ["accessibility_scores", "isochrones"] := by
  refine ⟨rfl, ?_, ?_⟩
  · intro u hu
    cases cs with
    | nil =>
        left
        have hu' := Except.ok.inj hu
        rw [← hu']
        rfl
    | cons c0 rest =>
        right
        rcases critic_node_ok_cons ctask c0 rest u hu with ⟨results, -, hue⟩
        rw [hue]
        rfl
  · cases cs with
    | nil => rfl
    | cons c0 rest => rfl

/-- C2 witness: the amended theorem at a concrete state and batch. -/
theorem c2_stage_key_ownership_witness :
    cost_analyst_node [("raw_prompt", Val.vstr "x")]
      = [("raw_prompt", Val.vstr "x")] ∧
    dictKeys (access_analyst_node
        (fun _ => Except.ok (Val.vnum 1, none)) [⟨some "v", none⟩])
      = ["accessibility_scores", "isochrones"] ∧
    (dictKeys [("risk_flags", Val.vdict []), ("veto", Val.vbool false),
        ("veto_reason", Val.vnull)] = ["risk_flags", "veto", "veto_reason"] ∨
     dictKeys [("risk_flags", Val.vdict []), ("veto", Val.vbool false),
        ("veto_reason", Val.vnull)]
       = ["risk_flags", "fast_fail", "fast_fail_reason", "veto",
          "veto_reason"]) := by
  have h := c2_stage_key_ownership [("raw_prompt", Val.vstr "x")]
    (fun _ => Except.ok ⟨Val.vlist [], false, none⟩)
    (fun _ => Except.ok (Val.vnum 1, none)) []
  refine ⟨h.1, ?_, ?_⟩
  · exact (c2_stage_key_ownership [("raw_prompt", Val.vstr "x")]
      (fun _ => Except.ok ⟨Val.vlist [], false, none⟩)
      (fun _ => Except.ok (Val.vnum 1, none)) [⟨some "v", none⟩]).2.2
  · exact h.2.1 _ rfl

/-- C5: with an empty candidate list, the critic returns exactly
`{risk_flags: {}, veto: false, veto_reason: None}` and the access analyst
returns exactly `{accessibility_scores: {}, isochrones: {}}`, whatever the
per-venue task environments do, and neither stage raises. -/
theorem c5_empty_candidates_update
    (ctask : Venue → Except String Analysis)
    (task : Venue → Except String (Val × Option Val)) :
    critic_node ctask []
      = Except.ok [("risk_flags", Val.vdict []), ("veto", Val.vbool false),
          ("veto_reason", Val.vnull)] ∧
    access_analyst_node task []
      = [("accessibility_scores", Val.vdict []),
         ("isochrones", Val.vdict [])] :=
  ⟨rfl, rfl⟩

/-- C8 counterexample: there is no fixed bound on the number of sub-tasks
the access stage hands to `asyncio.gather` — the batch grows with the
candidate list (no semaphore exists in the stage). -/
theorem c8_unbounded_concurrency_counterexample :
    ¬ ∃ limit : Nat, ∀ cs : List Venue,
        (accessBatchTasks (fun _ => Except.ok (Val.vnull, none)) cs).length
          ≤ limit := by
  rintro ⟨L, hL⟩
  have h := hL (List.replicate (L + 1) ⟨none, none⟩)
  simp only [accessBatchTasks, List.length_map, List.length_replicate] at h
  exact absurd h (Nat.not_succ_le_self L)

/-- C8 (amended): the access stage launches exactly one sub-task per
candidate venue — unbounded in the candidate count — while the critic batch
is capped at the first three candidates. -/
theorem c8_batch_task_counts
    (task : Venue → Except String (Val × Option Val))
    (ctask : Venue → Except String Analysis) (cs : List Venue) :
    (accessBatchTasks task cs).length = cs.length ∧
    (criticBatchTasks ctask cs).length = min cs.length 3 ∧
    (criticBatchTasks ctask cs).length ≤ 3 := by
  refine ⟨?_, ?_, ?_⟩
  · simp [accessBatchTasks]
  · simp only [criticBatchTasks, List.length_map, List.length_take]
    exact Nat.min_comm 3 cs.length
  · simp only [criticBatchTasks, List.length_map, List.length_take]
    exact Nat.min_le_left 3 _

/-- C9 counterexample: a malformed isochrone response that still carries a
truthy `type` is returned as-is (not `None`), and a body that fails JSON
decoding raises out of `get_isochrone` (neither `except` clause catches
`json.JSONDecodeError`). -/
theorem c9_isochrone_counterexample :
    get_isochrone "token123" (MapboxResp.okJson ⟨some "Error", []⟩)
      = Except.ok (some ⟨some "Error", []⟩) ∧
    get_isochrone "token123" MapboxResp.badJson
      = Except.error "JSONDecodeError" := ⟨rfl, rfl⟩

/-- C9 (amended): `get_isochrone` degrades to `None` on a missing token and
on `httpx` errors, and on a decoded payload it returns `None` exactly when
the payload's `type` is missing/falsy — a malformed payload with a truthy
`type` is passed through, and a JSON-decoding failure propagates.
`get_distance_matrix` on a failed request returns exactly one ERROR marker
per destination. -/
theorem c9_degraded_service_values (token : String) (code : Nat)
    (emsg : String) (data : GeoData) (nDest : Nat) :
    get_isochrone token (MapboxResp.httpStatusError code) = Except.ok none ∧
    get_isochrone token (MapboxResp.httpError emsg) = Except.ok none ∧
    get_isochrone "" (MapboxResp.okJson data) = Except.ok none ∧
    (geoTypeTruthy data.typ = false →
        get_isochrone token (MapboxResp.okJson data) = Except.ok none) ∧
    (token ≠ "" → geoTypeTruthy data.typ = true →
        get_isochrone token (MapboxResp.okJson data)
          = Except.ok (some data)) ∧
    (token ≠ "" →
        get_distance_matrix token nDest MatrixResp.failure
          = List.replicate nDest errMarker) ∧
    (∀ m ∈ List.replicate nDest errMarker, m.status = "ERROR") := by
  refine ⟨?_, ?_, ?_, ?_, ?_, ?_, ?_⟩
  · unfold get_isochrone
    by_cases h : token = ""
    · rw [if_pos h]
    · rw [if_neg h]
  · unfold get_isochrone
    by_cases h : token = ""
    · rw [if_pos h]
    · rw [if_neg h]
  · unfold get_isochrone
    rw [if_pos rfl]
  · intro hf
    by_cases h : token = ""
    · unfold get_isochrone
      rw [if_pos h]
    · rw [get_isochrone_okJson token data h]
      have h1 : ¬ (data.typ = some "FeatureCollection"
          ∧ data.features.isEmpty = false) := by
        rintro ⟨ht, -⟩
        rw [ht] at hf
        exact absurd hf (by decide)
      rw [if_neg h1]
      rw [if_neg (by intro hcl; rw [hf] at hcl; cases hcl)]
  · intro hne ht
    rw [get_isochrone_okJson token data hne]
    by_cases h1 : (data.typ = some "FeatureCollection"
        ∧ data.features.isEmpty = false)
    · rw [if_pos h1]
    · rw [if_neg h1, if_pos ht]
  · intro hne
    unfold get_distance_matrix
    rw [if_neg hne]
  · intro m hm
    rw [List.eq_of_mem_replicate hm]
    rfl

/-- C9 witness: the amended theorem at concrete inputs. -/
theorem c9_degraded_service_values_witness :
    get_isochrone "tok"
        (MapboxResp.okJson ⟨some "FeatureCollection", [Val.vnull]⟩)
      = Except.ok (some ⟨some "FeatureCollection", [Val.vnull]⟩) ∧
    get_distance_matrix "tok" 2 MatrixResp.failure
      = [errMarker, errMarker] ∧
    errMarker.status = "ERROR" := by
  have h := c9_degraded_service_values "tok" 404 "boom"
    ⟨some "FeatureCollection", [Val.vnull]⟩ 2
  refine ⟨h.2.2.2.2.1 (by decide) (by decide), ?_, ?_⟩
  · rw [h.2.2.2.2.2.1 (by decide)]
    rfl
  · exact h.2.2.2.2.2.2 errMarker (by simp)

/-- Per-venue critic task for the C3 counterexample: the second-ranked venue
`b` fast-fails, the top-ranked venue `a` does not. -/
def c3ctask (v : Venue) : Except String Analysis :=
  if v.venue_id == some "b" then
    Except.ok ⟨Val.vlist [], true, some "marathon blocks access"⟩
  else Except.ok ⟨Val.vlist [], false, none⟩

/-- C3 counterexample: candidate `b` (in the reviewed subset, not
top-ranked) reports `fast_fail = true`, yet the stage returns
`veto = false` — only a top-candidate fast-fail sets the veto. -/
theorem c3_lower_rank_veto_counterexample :
    c3ctask ⟨some "b", none⟩
      = Except.ok ⟨Val.vlist [], true, some "marathon blocks access"⟩ ∧
    critic_node c3ctask [⟨some "a", none⟩, ⟨some "b", none⟩]
      = Except.ok
        [("risk_flags", Val.vdict [("a", Val.vlist []), ("b", Val.vlist [])]),
         ("fast_fail", Val.vbool false), ("fast_fail_reason", Val.vnull),
         ("veto", Val.vbool false), ("veto_reason", Val.vnull)] :=
  ⟨rfl, rfl⟩

/-- C3 (amended): in a settled review batch, `veto = true` exactly when some
analyzed candidate reports `fast_fail = true` AND its venue id equals the
top-ranked candidate's key — a fast-fail on a lower-ranked candidate with a
different id never sets the veto. -/
theorem c3_veto_top_candidate_only
    (ctask : Venue → Except String Analysis) (c0 : Venue)
    (rest : List Venue) (u : List (String × Val))
    (hu : critic_node ctask (c0 :: rest) = Except.ok u) :
    u.lookup "veto" = some (Val.vbool
      (((c0 :: rest).take 3).any (fun v =>
        match ctask v with
        | Except.ok a => a.fast_fail && (some (venueId v) == topVenueKey c0)
        | Except.error _ => false))) := by
  rcases critic_node_ok_cons ctask c0 rest u hu with ⟨results, hres, hue⟩
  unfold criticResults at hres
  have hmapeq := (gather_eq_ok_iff _ _).mp hres
  unfold criticBatchTasks at hmapeq
  have hany2 := critic_any_fast_fail ctask (topVenueKey c0)
    ((c0 :: rest).take 3) results hmapeq
  rw [hue, lookup_veto_update, criticOverall_fst, hany2]

/-- C3 witness: the amended theorem with a fast-failing top candidate. -/
theorem c3_veto_top_candidate_only_witness :
    List.lookup "veto"
      [("risk_flags", Val.vdict [("x", Val.vlist [])]),
       ("fast_fail", Val.vbool true),
       ("fast_fail_reason", Val.vstr "storm"),
       ("veto", Val.vbool true), ("veto_reason", Val.vstr "storm")]
      = some (Val.vbool true) := by
  have h := c3_veto_top_candidate_only
    (fun _ => Except.ok ⟨Val.vlist [], true, some "storm"⟩)
    ⟨some "x", none⟩ [] _ rfl
  exact h

/-- Per-venue critic task for the C6 witness (same analysis everywhere). -/
def c6f1 (_v : Venue) : Except String Analysis :=
  Except.ok ⟨Val.vlist [], false, none⟩

/-- Per-venue critic task for the C6 witness, differing from `c6f1` only on
the fourth-ranked venue, which lies beyond the reviewed prefix. -/
def c6f2 (v : Venue) : Except String Analysis :=
  if v.venue_id == some "d4" then Except.ok ⟨Val.vlist [], true, some "late"⟩
  else Except.ok ⟨Val.vlist [], false, none⟩

/-- Candidates for the C6 witness. -/
def c6cs : List Venue :=
  [⟨some "d1", none⟩, ⟨some "d2", none⟩, ⟨some "d3", none⟩,
   ⟨some "d4", none⟩]

/-- C6 counterexample: two evaluated candidates sharing the id `A` collapse
to a single `risk_flags` entry — not "exactly one entry per evaluated
candidate". -/
theorem c6_duplicate_id_counterexample :
    critic_node (fun _ => Except.ok ⟨Val.vlist [], false, none⟩)
        [⟨none, some "A"⟩, ⟨none, some "A"⟩]
      = Except.ok
        [("risk_flags", Val.vdict [("A", Val.vlist [])]),
         ("fast_fail", Val.vbool false), ("fast_fail_reason", Val.vnull),
         ("veto", Val.vbool false), ("veto_reason", Val.vnull)] ∧
    [("A", Val.vlist [])].length = 1 ∧
    (([⟨none, some "A"⟩, ⟨none, some "A"⟩] : List Venue).take 3).length
      = 2 :=
  ⟨rfl, rfl, rfl⟩

/-- C6 (amended): the review stage analyzes exactly the first
`min(n, 3)` candidates — its result does not depend on the task environment
beyond that prefix — and in a settled batch the `risk_flags` keys are
exactly the ids of the analyzed prefix (duplicate ids collapse); when the
prefix ids are pairwise distinct there is exactly one entry per analyzed
candidate, in order. -/
theorem c6_review_first_three
    (ctask ctask' : Venue → Except String Analysis) (cs : List Venue) :
    ((∀ v ∈ cs.take 3, ctask v = ctask' v) →
        critic_node ctask cs = critic_node ctask' cs) ∧
    (∀ u, critic_node ctask cs = Except.ok u → ∃ flags,
        u.lookup "risk_flags" = some (Val.vdict flags) ∧
        (∀ k, k ∈ dictKeys flags ↔ k ∈ (cs.take 3).map venueId) ∧
        (dictKeys flags).Nodup ∧
        (((cs.take 3).map venueId).Nodup →
            dictKeys flags = (cs.take 3).map venueId)) := by
  constructor
  · intro hagree
    cases cs with
    | nil => rfl
    | cons c0 rest =>
        simp only [critic_node]
        have hbatch : criticBatchTasks ctask (c0 :: rest)
            = criticBatchTasks ctask' (c0 :: rest) := by
          unfold criticBatchTasks
          apply List.map_congr_left
          intro v hv
          rw [hagree v hv]
        unfold criticResults
        rw [hbatch]
  · intro u hu
    cases cs with
    | nil =>
        refine ⟨[], ?_, ?_, List.nodup_nil, ?_⟩
        · have hu' := Except.ok.inj hu
          rw [← hu']
          rfl
        · intro k
          constructor
          · intro hk
            cases hk
          · intro hk
            simp at hk
        · intro _
          rfl
    | cons c0 rest =>
        rcases critic_node_ok_cons ctask c0 rest u hu with ⟨results, hres, hue⟩
        refine ⟨criticRiskFlags results, ?_, ?_, ?_, ?_⟩
        · rw [hue, lookup_risk_flags_update]
        · exact criticRiskFlags_keys_iff ctask (c0 :: rest) results hres
        · exact nodup_dictKeys_dfold _ _ _ results [] List.nodup_nil
        · exact criticRiskFlags_keys_eq ctask (c0 :: rest) results hres

/-- C6 witness: changing the per-venue analysis only beyond the third
candidate leaves the stage output unchanged. -/
theorem c6_review_first_three_witness :
    critic_node c6f1 c6cs = critic_node c6f2 c6cs := by
  apply (c6_review_first_three c6f1 c6f2 c6cs).1
  intro v hv
  have hv' : v ∈ ([⟨some "d1", none⟩, ⟨some "d2", none⟩,
      ⟨some "d3", none⟩] : List Venue) := hv
  simp only [List.mem_cons, List.mem_singleton] at hv'
  rcases hv' with rfl | rfl | rfl | h
  · rfl
  · rfl
  · rfl
  · cases h

/-- C7: the key set of each scorer output mapping is drawn from the ids of
`candidate_venues`; the isochrone mapping never stores a null value — a
venue whose isochrone lookup failed is simply absent from `isochrones`
(while, in a settled batch, still scored in `accessibility_scores`); and the
critic's `risk_flags` keys are also candidate ids. -/
theorem c7_scorer_key_isolation
    (task : Venue → Except String (Val × Option Val))
    (ctask : Venue → Except String Analysis) (cs : List Venue) :
    (∀ k, k ∈ dictKeys (accessScoresDict task cs) → k ∈ cs.map venueId) ∧
    (∀ k, k ∈ dictKeys (accessIsoDict task cs) → k ∈ cs.map venueId) ∧
    (∀ k w, (k, w) ∈ accessIsoDict task cs → w ≠ Val.vnull) ∧
    ((∀ v ∈ cs, settled (task v) = true) →
        ∀ v ∈ cs, venueId v ∈ dictKeys (accessScoresDict task cs)) ∧
    ((∀ v ∈ cs, settled (task v) = true) →
        ∀ k, k ∈ dictKeys (accessIsoDict task cs) ↔
          ∃ v, v ∈ cs ∧ venueId v = k ∧
            ∃ sc g, task v = Except.ok (sc, some g) ∧ valTruthy g = true) ∧
    (∀ u flags, critic_node ctask cs = Except.ok u →
        u.lookup "risk_flags" = some (Val.vdict flags) →
        ∀ k, k ∈ dictKeys flags → k ∈ cs.map venueId) := by
  refine ⟨?_, ?_, ?_, ?_, ?_, ?_⟩
  · intro k hk
    unfold accessScoresDict at hk
    rw [mem_dictKeys_dfold] at hk
    rcases hk with hk | ⟨r, hr, -, hfr⟩
    · cases hk
    · rcases accessResults_mem task cs r hr with ⟨v, hv, p, -, hre⟩
      rw [← hfr, hre]
      exact List.mem_map_of_mem venueId hv
  · intro k hk
    unfold accessIsoDict at hk
    rw [mem_dictKeys_dfold] at hk
    rcases hk with hk | ⟨r, hr, -, hfr⟩
    · cases hk
    · rcases accessResults_mem task cs r hr with ⟨v, hv, p, -, hre⟩
      rw [← hfr, hre]
      exact List.mem_map_of_mem venueId hv
  · intro k w hkw
    unfold accessIsoDict at hkw
    rcases mem_dfold _ _ _ _ [] (k, w) hkw with hk | ⟨r, -, hpr, hxe⟩
    · cases hk
    · cases hr2 : r.2.2 with
      | none =>
          rw [hr2] at hpr
          cases hpr
      | some gv =>
          rw [hr2] at hpr hxe
          have hw : w = gv := congrArg Prod.snd hxe
          have htr : valTruthy gv = true := hpr
          intro hnull
          rw [hnull] at hw
          rw [← hw] at htr
          cases htr
  · intro hset v hv
    have hall2 : ∀ t ∈ accessBatchTasks task cs, settled t = true := by
      intro t ht
      rcases List.mem_map.mp ht with ⟨v', hv', rfl⟩
      rw [settled_map]
      exact hset v' hv'
    have hg := gather_of_all_settled _ hall2
    have hres := accessResults_eq_of_gather_ok task cs _ hg
    have hmapeq := (gather_eq_ok_iff _ _).mp hg
    unfold accessBatchTasks at hmapeq
    rcases exists_ok_of_mem_of_map_eq_map_ok _ _ _ hmapeq v hv
      with ⟨r, hr, hfv⟩
    cases ht : task v with
    | error e2 =>
        rw [ht] at hfv
        simp [Except.map] at hfv
    | ok p =>
        rw [ht] at hfv
        have hre : (venueId v, p.1, p.2) = r := Except.ok.inj hfv
        unfold accessScoresDict
        rw [hres, mem_dictKeys_dfold]
        right
        refine ⟨r, hr, rfl, ?_⟩
        rw [← hre]
  · intro hset k
    have hall2 : ∀ t ∈ accessBatchTasks task cs, settled t = true := by
      intro t ht
      rcases List.mem_map.mp ht with ⟨v', hv', rfl⟩
      rw [settled_map]
      exact hset v' hv'
    have hg := gather_of_all_settled _ hall2
    have hres := accessResults_eq_of_gather_ok task cs _ hg
    have hmapeq := (gather_eq_ok_iff _ _).mp hg
    unfold accessBatchTasks at hmapeq
    constructor
    · intro hk
      unfold accessIsoDict at hk
      rw [mem_dictKeys_dfold] at hk
      rcases hk with hk | ⟨r, hr, hpr, hfr⟩
      · cases hk
      · rcases accessResults_mem task cs r hr with ⟨v, hv, p, htv, hre⟩
        cases hp2 : p.2 with
        | none =>
            rw [hre, hp2] at hpr
            cases hpr
        | some gv =>
            refine ⟨v, hv, ?_, p.1, gv, ?_, ?_⟩
            · rw [← hfr, hre]
            · rw [htv, ← hp2]
            · rw [hre, hp2] at hpr
              exact hpr
    · rintro ⟨v, hv, hkv, sc, g, htv, htr⟩
      rcases exists_ok_of_mem_of_map_eq_map_ok _ _ _ hmapeq v hv
        with ⟨r, hr, hfv⟩
      rw [htv] at hfv
      have hre : (venueId v, sc, some g) = r := Except.ok.inj hfv
      unfold accessIsoDict
      rw [hres, mem_dictKeys_dfold]
      right
      refine ⟨r, hr, ?_, ?_⟩
      · rw [← hre]
        exact htr
      · rw [← hre]
        exact hkv
  · intro u flags hu hflags k hk
    cases cs with
    | nil =>
        have hu' := Except.ok.inj hu
        rw [← hu'] at hflags
        have hfl : Val.vdict [] = Val.vdict flags :=
          Option.some.inj hflags
        have hfl2 : ([] : List (String × Val)) = flags := Val.vdict.inj hfl
        rw [← hfl2] at hk
        cases hk
    | cons c0 rest =>
        rcases critic_node_ok_cons ctask c0 rest u hu with ⟨results, hres, hue⟩
        rw [hue, lookup_risk_flags_update] at hflags
        have hfl : Val.vdict (criticRiskFlags results) = Val.vdict flags :=
          Option.some.inj hflags
        have hfl2 : criticRiskFlags results = flags := Val.vdict.inj hfl
        rw [← hfl2] at hk
        have hk2 :=
          (criticRiskFlags_keys_iff ctask (c0 :: rest) results hres k).mp hk
        rcases List.mem_map.mp hk2 with ⟨v, hv, hkv⟩
        exact hkv ▸ List.mem_map_of_mem venueId (List.take_subset 3 _ hv)

/-- Per-venue access task for the C7 witness: the venue is scored but its
isochrone lookup failed (`None`). -/
def c7task (_v : Venue) : Except String (Val × Option Val) :=
  Except.ok (Val.vnum 1, none)

/-- C7 witness: a concrete settled batch with one venue whose isochrone
lookup failed. -/
theorem c7_scorer_key_isolation_witness :
    venueId ⟨some "v1", none⟩
      ∈ dictKeys (accessScoresDict c7task [⟨some "v1", none⟩]) ∧
    ("v1" ∈ dictKeys (accessIsoDict c7task [⟨some "v1", none⟩]) ↔
      ∃ v, v ∈ ([⟨some "v1", none⟩] : List Venue) ∧ venueId v = "v1" ∧
        ∃ sc g, c7task v = Except.ok (sc, some g) ∧ valTruthy g = true) := by
  have h := c7_scorer_key_isolation c7task
    (fun _ => Except.ok ⟨Val.vlist [], false, none⟩) [⟨some "v1", none⟩]
  constructor
  · exact h.2.2.2.1 (by intro v hv; rfl) ⟨some "v1", none⟩
      (List.mem_singleton.mpr rfl)
  · exact h.2.2.2.2.1 (by intro v hv; rfl) "v1"

/-- C4: in any reachable state of the streaming endpoint, if the terminal
frame has been sent then it matches the graph outcome (`result` on success,
`error` on failure), every event emitted into the queue during the run has
been delivered to the observer in arrival order (`delivered = events`), and
no further frame is ever sent; and every maximal (stuck) run has sent
exactly one terminal frame with all events delivered. -/
theorem c4_streaming_events (events : List LogEntry)
    (outcome : Except String Val) (s : WSState)
    (hr : WSReach events outcome s) :
    (∀ m, s.terminal = some m →
        m = terminalOf outcome ∧ s.delivered = events ∧ WSFinal outcome s) ∧
    (WSFinal outcome s →
        s.terminal = some (terminalOf outcome) ∧ s.delivered = events) := by
  constructor
  · intro m hm
    obtain ⟨h1, h2, h3⟩ := wsReach_inv events outcome s hr
    obtain ⟨hme, hq, hte, hg⟩ := h3 m hm
    refine ⟨hme, ?_, wsTerminal_final outcome s m hm hg⟩
    rw [hq, hte] at h1
    simpa using h1
  · intro hf
    exact wsFinal_terminal events outcome s hr hf

/-- C4 witness: a concrete complete run — one event emitted, graph settles
with a result, event delivered, terminal frame sent. -/
theorem c4_streaming_events_witness :
    ({ toEmit := [], graphDone := true, q := [],
       delivered := [⟨"critic", "checking"⟩],
       terminal := some (TerminalMsg.result (Val.vstr "done")) } :
        WSState).delivered = [⟨"critic", "checking"⟩] ∧
    TerminalMsg.result (Val.vstr "done")
      = terminalOf (Except.ok (Val.vstr "done")) := by
  have h1 : WSReach [⟨"critic", "checking"⟩] (Except.ok (Val.vstr "done"))
      { toEmit := [], graphDone := false, q := [⟨"critic", "checking"⟩],
        delivered := [], terminal := none } :=
    Relation.ReflTransGen.tail Relation.ReflTransGen.refl
      (WSStep.emit (initWS [⟨"critic", "checking"⟩])
        ⟨"critic", "checking"⟩ [] rfl rfl)
  have h2 : WSReach [⟨"critic", "checking"⟩] (Except.ok (Val.vstr "done"))
      { toEmit := [], graphDone := true, q := [⟨"critic", "checking"⟩],
        delivered := [], terminal := none } :=
    Relation.ReflTransGen.tail h1
      (WSStep.settle
        { toEmit := [], graphDone := false, q := [⟨"critic", "checking"⟩],
          delivered := [], terminal := none } rfl rfl)
  have h3 : WSReach [⟨"critic", "checking"⟩] (Except.ok (Val.vstr "done"))
      { toEmit := [], graphDone := true, q := [],
        delivered := [⟨"critic", "checking"⟩], terminal := none } :=
    Relation.ReflTransGen.tail h2
      (WSStep.deliver
        { toEmit := [], graphDone := true, q := [⟨"critic", "checking"⟩],
          delivered := [], terminal := none } ⟨"critic", "checking"⟩ []
        rfl rfl)
  have hreach : WSReach [⟨"critic", "checking"⟩]
      (Except.ok (Val.vstr "done"))
      { toEmit := [], graphDone := true, q := [],
        delivered := [⟨"critic", "checking"⟩],
        terminal := some (TerminalMsg.result (Val.vstr "done")) } :=
    Relation.ReflTransGen.tail h3
      (WSStep.finalSend
        { toEmit := [], graphDone := true, q := [],
          delivered := [⟨"critic", "checking"⟩], terminal := none }
        rfl rfl rfl)
  have h := (c4_streaming_events [⟨"critic", "checking"⟩]
      (Except.ok (Val.vstr "done")) _ hreach).1
      (TerminalMsg.result (Val.vstr "done")) rfl
  exact ⟨h.2.1, h.1⟩

theorem wsHandlerEmit_ok (msg : String) :
    wsHandlerEmit (Except.ok msg)
      = (if msg = "" then none
         else if sepOnly (pyStrip msg) = true then none
         else some { node := nodeOfMsg msg, message := msg }) := rfl

/-- The node name the claim ascribes to an enqueued entry: the mapped name
of a recognised tag, the lowercased tag of an unrecognised one, or
`"system"` when the message carries no tag. -/
def emitNodeSpec (msg node : String) : Prop :=
  (∃ tag, taggedWith msg tag ∧
      ((tag, node) ∈ prefixTagMap ∨
        ((∀ x, (tag, x) ∉ prefixTagMap) ∧ node = pyLower tag))) ∨
  ((∀ tag, ¬ taggedWith msg tag) ∧ node = "system")

/-- C10: the handler's `emit` never raises (formatting failures included),
enqueues nothing exactly for empty messages and separator-only lines, and
otherwise enqueues exactly one `{node, message}` entry whose message is the
formatted record and whose node is the mapped name of a recognised
`[PREFIX]` tag, the lowercased tag of an unrecognised one, or `"system"`
for untagged messages. -/
theorem c10_emit_event_shape :
    (∀ err, wsHandlerEmit (Except.error err) = none) ∧
    (∀ msg : String, wsHandlerEmit (Except.ok msg) = none ↔
        (msg = "" ∨ sepOnly (pyStrip msg) = true)) ∧
    (∀ msg e, wsHandlerEmit (Except.ok msg) = some e →
        e.message = msg ∧ emitNodeSpec msg e.node) := by
  refine ⟨fun err => rfl, ?_, ?_⟩
  · intro msg
    rw [wsHandlerEmit_ok]
    by_cases h1 : msg = ""
    · rw [if_pos h1]
      simp [h1]
    · rw [if_neg h1]
      by_cases h2 : sepOnly (pyStrip msg) = true
      · rw [if_pos h2]
        simp [h2]
      · rw [if_neg h2]
        simp [h1, h2]
  · intro msg e he
    rw [wsHandlerEmit_ok] at he
    by_cases h1 : msg = ""
    · rw [if_pos h1] at he
      cases he
    · rw [if_neg h1] at he
      by_cases h2 : sepOnly (pyStrip msg) = true
      · rw [if_pos h2] at he
        cases he
      · rw [if_neg h2] at he
        have he' : ({ node := nodeOfMsg msg, message := msg } : LogEntry)
            = e := Option.some.inj he
        constructor
        · rw [← he']
        · rw [← he']
          show emitNodeSpec msg (nodeOfMsg msg)
          unfold emitNodeSpec
          cases htag : tagOf msg with
          | none =>
              rw [nodeOfMsg_of_no_tag msg htag]
              exact Or.inr ⟨tagOf_eq_none_not_tagged msg htag, rfl⟩
          | some tag =>
              rw [nodeOfMsg_of_tag msg tag htag]
              left
              refine ⟨tag, (tagOf_eq_some_iff msg tag).mp htag, ?_⟩
              cases hlk : prefixTagMap.lookup tag with
              | some mapped =>
                  exact Or.inl (lookup_mem _ _ _ hlk)
              | none =>
                  exact Or.inr ⟨lookup_eq_none_not_mem _ _ hlk, rfl⟩

/-- C10 witness: a tagged message is enqueued once with the mapped node. -/
theorem c10_emit_event_shape_witness :
    wsHandlerEmit (Except.ok "[CRITIC] checking risks")
      = some { node := "critic", message := "[CRITIC] checking risks" } ∧
    ({ node := "critic", message := "[CRITIC] checking risks" } :
        LogEntry).message = "[CRITIC] checking risks" := by
  have hemit : wsHandlerEmit (Except.ok "[CRITIC] checking risks")
      = some { node := "critic", message := "[CRITIC] checking risks" } := by
    decide
  have h := c10_emit_event_shape.2.2 "[CRITIC] checking risks"
    { node := "critic", message := "[CRITIC] checking risks" } hemit
  exact ⟨hemit, h.1⟩

end Pathfinder
